import Mathlib

/-!
Shallow embedding of the UNOArena turn engine.

Sources embedded here:
* src/unnamed/part_000 — the `BotsServer` module: `canPlayCard` (the card
  legality oracle), `getNextPlayer` (the turn resolver), `move` (the move
  engine), `finishGame`, `getCardById`, and the dispatch half of `moveBot`.
* src/uno/src/BotsServer/LLMBot.ts — `LLMEnhancedBotsServer`:
  `fallbackMoveBot` (the deterministic local policy) and the
  response-handling logic of `getLLMMove`.

Code of the repository that is not under src/ is modelled from the spec and
is marked as such below: the `wrapMod` helper (utils/helpers), the `shuffle`
helper (taken as an abstract permutation-valued parameter `shuffleFn`), and
the global card list data.json (taken as a parameter `deck`).
-/

/-- Card (src/uno interfaces, spec §3): opaque id, color, optional digit,
optional action string. -/
structure Card where
  id : String
  color : String
  digit : Option Nat := none
  action : Option String := none
deriving DecidableEq, Repr

/-- Player/seat: hand is the `cards` list; the seat's other data is kept as
in the source. -/
structure Player where
  id : String
  name : String
  cards : List Card
  isBot : Bool := false
deriving DecidableEq, Repr

/-- JavaScript truthiness of an optional string (`undefined`, `null` and `""`
are falsy). -/
def strTruthy (s : Option String) : Bool := s.getD "" != ""

/-- List-of-characters prefix test (first argument is the candidate
pattern), used to express substring search structurally. -/
def listStarts : List Char → List Char → Bool
  | [], _ => true
  | _ :: _, [] => false
  | p :: ps, c :: cs => p == c && listStarts ps cs

/-- Substring occurrence test over character lists. -/
def hasSub (pat : List Char) : List Char → Bool
  | [] => listStarts pat []
  | c :: cs => listStarts pat (c :: cs) || hasSub pat cs

/-- JavaScript `a.indexOf ("draw") !== -1`: the string contains "draw" as a
substring. -/
def hasDrawWord (a : String) : Bool := hasSub ("draw").toList a.toList

/-- Card Legality Oracle, translated from `canPlayCard`
(src/unnamed/part_000 lines 278-306; the private copy in LLMBot.ts lines
263-279 is textually identical). `oldCard` is `tableStk[0]`, which is
`undefined` (here `none`) when the table pile is empty. -/
def canPlayCard (oldCard : Option Card) (newCard : Card) (lastPlayerDrew : Bool) : Bool :=
  let isOldDrawingCard :=
    match oldCard with
    | some oc => strTruthy oc.action && hasDrawWord (oc.action.getD "")
    | none => false
  let haveToDraw := isOldDrawingCard && !lastPlayerDrew
  let isNewDrawingCard := strTruthy newCard.action && hasDrawWord (newCard.action.getD "")
  match oldCard with
  | none => true
  | some oldC =>
    if !haveToDraw && newCard.action == some ("wild") then true
    else if newCard.action == some ("draw four") then true
    else if oldC.color == ("black") && !haveToDraw then true
    else if haveToDraw && isNewDrawingCard then true
    else if !haveToDraw && oldC.color == newCard.color then true
    else if oldC.digit.isSome && oldC.digit == newCard.digit then true
    else false

/-- Modelled from the spec: the `wrapMod` helper (src/uno utils/helpers, not
under src/) wraps an index "by direction modulo seat count" (§4.2); in
JavaScript that is `((n % m) + m) % m` with the truncating `%`, which
`Int.tmod` mirrors. -/
def wrapMod (n m : Int) : Int := (Int.tmod n m + m).tmod m

/-- Game State (spec §3), the fields of the `BotsServer` class mutated by the
engine. -/
structure GameState where
  players : List Player
  curPlayer : Nat
  direction : Int
  tableStk : List Card
  drawingStk : List Card
  sumDrawing : Nat
  lastPlayerDrew : Bool
  playersFinished : List Nat
deriving DecidableEq, Repr

/-- The state that `init()` resets to (src/unnamed/part_000 lines 45-55). -/
def initState : GameState :=
  { players := [], curPlayer := 0, direction := 1, tableStk := [], drawingStk := [],
    sumDrawing := 0, lastPlayerDrew := false, playersFinished := [] }

/-- One index step of the turn resolver:
`wrapMod (nxtPlayer + 1 * direction, players.length)`
(src/unnamed/part_000 lines 204-212). -/
def stepIdx (len : Nat) (d : Int) (i : Nat) : Nat :=
  (wrapMod ((i : Int) + 1 * d) (len : Int)).toNat

/-- The seat's hand is empty: `players[i].cards.length === 0`. Out-of-range
indices (on which the source would throw) are treated as non-empty; all
theorems below keep indices in range. -/
def seatEmpty (players : List Player) (i : Nat) : Bool :=
  match players.get? i with
  | some p => p.cards.length == 0
  | none => false

/-- The inner `while (players[nxtPlayer].cards.length === 0)` loop of
`getNextPlayer` (src/unnamed/part_000 lines 208-212), with explicit fuel.
`players.length` iterations suffice to reach the first seat holding cards
whenever such a seat exists (proved below); when every seat is empty the
source loop never terminates, and the fuel variant returns the start index. -/
def skipEmptySeats (players : List Player) (d : Int) : Nat → Nat → Nat
  | 0, i => i
  | fuel + 1, i =>
    if seatEmpty players i then
      skipEmptySeats players d fuel (stepIdx players.length d i)
    else i

/-- One iteration of the `while (steps--)` body of `moveForward`: advance the
index once by the direction, then skip over finished (empty-hand) seats. -/
def advanceOne (players : List Player) (d : Int) (i : Nat) : Nat :=
  skipEmptySeats players d players.length (stepIdx players.length d i)

/-- The `moveForward(steps)` closure of `getNextPlayer`
(src/unnamed/part_000 lines 202-214). -/
def moveForward (players : List Player) (d : Int) : Nat → Nat → Nat
  | i, 0 => i
  | i, steps + 1 => moveForward players d (advanceOne players d i) steps

/-- Turn Resolver, translated from `getNextPlayer`
(src/unnamed/part_000 lines 197-222). Returns the (possibly flipped)
direction together with the next player index: the source mutates
`this.direction` as a side effect when a "reverse" is played, and steps
2 / 0 / 1 times for "skip" / "wild" / anything else. -/
def getNextPlayer (s : GameState) (card : Option Card) : Int × Nat :=
  let d := if card.bind Card.action == some ("reverse") then s.direction * -1 else s.direction
  if card.bind Card.action == some ("skip") then
    (d, moveForward s.players d s.curPlayer 2)
  else if card.bind Card.action != some ("wild") then
    (d, moveForward s.players d s.curPlayer 1)
  else
    (d, s.curPlayer)

/-- Array-cell update `players[i].cards = f (players[i].cards)`. -/
def modifyHand (ps : List Player) (i : Nat) (f : List Card → List Card) : List Player :=
  match ps, i with
  | [], _ => []
  | p :: rest, 0 => { p with cards := f p.cards } :: rest
  | p :: rest, j + 1 => p :: modifyHand rest j f

/-- Card lookup in the global deck, translated from `getCardById`
(src/unnamed/part_000 line 308); the deck itself is data.json, passed here
as a parameter. -/
def getCardById (deck : List Card) (id : String) : Option Card :=
  deck.find? (fun c => c.id == id)

/-- Move event payload (`IMoveEvent`, src/unnamed/part_000 lines 8-14). -/
structure MoveEvent where
  curPlayer : Nat
  nxtPlayer : Nat
  card : Option Card := none
  draw : Option Nat := none
  cardsToDraw : Option (List Card) := none
deriving DecidableEq, Repr

/-- Result of one `move` call. `rejected s` models the early `return false`
(taken before any field is assigned, so it carries the unchanged state);
`ongoing` models the normal path which fires the "move" event; `finished`
models the path through `finishGame`, which maps the finish order to player
objects, resets the state via `init()` and fires "finish-game" and "move". -/
inductive MoveOutcome where
  | rejected (s : GameState)
  | ongoing (s : GameState) (ev : MoveEvent)
  | finished (s : GameState) (order : List Player) (ev : MoveEvent)
deriving DecidableEq, Repr

def MoveOutcome.stateOf : MoveOutcome → GameState
  | .rejected s => s
  | .ongoing s _ => s
  | .finished s _ _ => s

def MoveOutcome.isOngoing : MoveOutcome → Bool
  | .ongoing _ _ => true
  | _ => false

def MoveOutcome.isRejected : MoveOutcome → Bool
  | .rejected _ => true
  | _ => false

def MoveOutcome.isFinished : MoveOutcome → Bool
  | .finished _ _ _ => true
  | _ => false

def MoveOutcome.orderOf : MoveOutcome → Option (List Player)
  | .finished _ ord _ => some ord
  | _ => none

def MoveOutcome.eventOf : MoveOutcome → Option MoveEvent
  | .rejected _ => none
  | .ongoing _ ev => some ev
  | .finished _ _ ev => some ev

/-- The draw branch of `move` (src/unnamed/part_000 lines 141-161): compute
the draw count from `sumDrawing`, reshuffle when `drawCnt + 1 >
drawingStk.length` (the new draw pile is the shuffled table pile below its
top 5 cards — note the source overwrites, rather than extends, the old draw
pile), then move the first `drawCnt` cards of the draw pile into the current
player's hand. Returns the new state, the draw count and the drawn cards
(the latter two recorded in the emitted event). -/
def doDraw (shuffleFn : List Card → List Card) (s : GameState) : GameState × Nat × List Card :=
  let drawCnt := if s.sumDrawing != 0 then s.sumDrawing else 1
  let s := { s with sumDrawing := if s.sumDrawing != 0 then 0 else s.sumDrawing }
  let s :=
    if drawCnt + 1 > s.drawingStk.length then
      { s with drawingStk := shuffleFn (s.tableStk.drop 5), tableStk := s.tableStk.take 5 }
    else s
  let drawn := s.drawingStk.take drawCnt
  ({ s with
      players := modifyHand s.players s.curPlayer (fun cs => drawn ++ cs),
      drawingStk := s.drawingStk.drop drawCnt,
      lastPlayerDrew := true },
   drawCnt, drawn)

/-- The card-played tail of `BotsServer.move`
(src/unnamed/part_000 lines 168-195): apply the draw-stacking effect, push
the card to the table pile, remove it from the actor's hand by id, record
the actor in `playersFinished` when the hand emptied, then either finish
the game (pushing `nxt` as the final entry and resetting state) or continue
with the current actor set to `nxt`. Factored out of `move` to keep the
branches tractable; `move` below is the entry point. -/
def applyPlay (s2 : GameState) (nxt : Nat) (c : Card) (ev : MoveEvent) : MoveOutcome :=
  let s3 := { s2 with
    sumDrawing := s2.sumDrawing
      + (if c.action == some ("draw two") then 2 else 0)
      + (if c.action == some ("draw four") then 4 else 0),
    tableStk := c :: s2.tableStk,
    players := modifyHand s2.players s2.curPlayer
      (fun cs => cs.filter (fun x => x.id != c.id)),
    lastPlayerDrew := false }
  let s4 :=
    if seatEmpty s3.players s3.curPlayer then
      { s3 with playersFinished := s3.playersFinished ++ [s3.curPlayer] }
    else s3
  if s4.playersFinished.length == s4.players.length - 1 then
    MoveOutcome.finished initState
      ((s4.playersFinished ++ [nxt]).filterMap (fun idx => s4.players.get? idx))
      ev
  else
    MoveOutcome.ongoing { s4 with curPlayer := nxt } ev

def move (deck : List Card) (shuffleFn : List Card → List Card)
    (s : GameState) (draw : Bool) (cardId : Option String) : MoveOutcome :=
  let card : Option Card :=
    if strTruthy cardId then getCardById deck (cardId.getD "") else none
  if (match card with
      | some c => !canPlayCard s.tableStk.head? c s.lastPlayerDrew
      | none => false) then
    MoveOutcome.rejected s
  else
    let dres := if draw then doDraw shuffleFn s else (s, 0, [])
    let s1 := dres.1
    let dn := getNextPlayer s1 card
    let s2 := { s1 with direction := dn.1 }
    let nxt := dn.2
    let ev0 : MoveEvent :=
      { curPlayer := s.curPlayer, nxtPlayer := nxt,
        draw := if draw then some dres.2.1 else none,
        cardsToDraw := if draw then some dres.2.2 else none }
    match card with
    | none => MoveOutcome.ongoing { s2 with curPlayer := nxt } ev0
    | some c => applyPlay s2 nxt c { ev0 with card := some c }

-- (see the doc comment on `applyPlay` above; `move` is translated from
-- src/unnamed/part_000 lines 132-195, with `deck` modelling data.json and
-- `shuffleFn` the shuffle helper)

/-- Total number of cards held across hands, table pile and draw pile
(spec §3 invariant (a)). -/
def totalCards (s : GameState) : Nat :=
  (s.players.map (fun p => p.cards.length)).sum + s.tableStk.length + s.drawingStk.length

/-- Bot decision payload (`LLMMoveResponse`, LLMBot.ts lines 53-62). -/
structure LLMMoveResponse where
  action : String
  card_id : Option String := none
  color : Option String := none
  reasoning : String := ""
  isValid : Bool
  provider : String := ""
  model : String := ""
deriving DecidableEq, Repr

/-- Deterministic local fallback policy, translated from
`LLMEnhancedBotsServer.fallbackMoveBot` (LLMBot.ts lines 221-258): filter
the hand through the legality oracle against the table top card; among the
playable cards prefer the first whose color matches the top card, else the
first with a (truthy) action other than "wild", else the first playable;
with no playable card, decide "draw". The reasoning strings are free text
not consumed by logic. -/
def fallbackMoveBot (tableStack : List Card) (lastPlayerDrew : Bool)
    (playerCards : List Card) : LLMMoveResponse :=
  let topCard := tableStack.head?
  let playableCards := playerCards.filter (fun c => canPlayCard topCard c lastPlayerDrew)
  if playableCards.length > 0 then
    let sameColor : Option Card :=
      match topCard with
      | some t => playableCards.find? (fun c => c.color == t.color)
      | none => none
    let actionCard := playableCards.find? (fun c => strTruthy c.action && c.action != some ("wild"))
    match sameColor.or (actionCard.or playableCards.head?) with
    | some bestCard =>
      { action := "play", card_id := some bestCard.id,
        color := if bestCard.color == ("black") then some ("red") else none,
        reasoning := "Playing best available option", isValid := true,
        provider := "fallback", model := "simple_bot" }
    | none =>
      { action := "draw", reasoning := "unreachable", isValid := true,
        provider := "fallback", model := "simple_bot" }
  else
    { action := "draw", reasoning := "No playable cards available, must draw from deck",
      isValid := true, provider := "fallback", model := "simple_bot" }

/-- Decision handling of `LLMEnhancedBotsServer.getLLMMove`
(LLMBot.ts lines 138-197). The network interaction is represented by its
outcome `netResponse`: `none` models every path that throws before a
response value is obtained (fetch error, abort on timeout, non-ok status,
malformed body) and lands in the catch block; `some r` models a decoded
response. The source falls back exactly when LLM usage is disabled, the
call threw, or the response's own `isValid` flag is false; otherwise the
response is returned as is. -/
def getLLMMoveModel (llmUsage : Bool) (netResponse : Option LLMMoveResponse)
    (tableStack : List Card) (lastPlayerDrew : Bool)
    (playerCards : List Card) : LLMMoveResponse :=
  if !llmUsage then fallbackMoveBot tableStack lastPlayerDrew playerCards
  else
    match netResponse with
    | none => fallbackMoveBot tableStack lastPlayerDrew playerCards
    | some r =>
      if !r.isValid then fallbackMoveBot tableStack lastPlayerDrew playerCards
      else r

/-- Dispatch half of `BotsServer.moveBot` (src/unnamed/part_000 lines
250-255): a "play" decision with a truthy card id is forwarded to
`move(false, card_id)`, anything else to `move(true, null)`. -/
def moveBotDispatch (deck : List Card) (shuffleFn : List Card → List Card)
    (s : GameState) (llmMove : LLMMoveResponse) : MoveOutcome :=
  if llmMove.action == ("play") && strTruthy llmMove.card_id then
    move deck shuffleFn s false llmMove.card_id
  else
    move deck shuffleFn s true none

/-- Modelled from the spec (§4.5): the fallback decision policy as the spec
words it — "scan the legal subset of the hand; prefer a card whose color
matches the table top card; else prefer any action card other than plain
wild; else take the first legal card in hand order; if no card in hand is
legal, decide draw". Used only to compare against `fallbackMoveBot`. -/
inductive SpecDecision where
  | play (c : Card)
  | draw
deriving DecidableEq, Repr

def specFallbackPolicy (top : Option Card) (drew : Bool) (hand : List Card) : SpecDecision :=
  let legal := hand.filter (fun c => canPlayCard top c drew)
  if h : legal = [] then SpecDecision.draw
  else
    match top.bind (fun t => legal.find? (fun (c : Card) => c.color == t.color)) with
    | some c => SpecDecision.play c
    | none =>
      match legal.find? (fun c => strTruthy c.action && c.action != some ("wild")) with
      | some c => SpecDecision.play c
      | none => SpecDecision.play (legal.head h)

/-- Number of index positions one resolver step moves, expressed as a
forward offset: direction `1` moves one seat forward, direction `-1` moves
one seat backward, i.e. `len - 1` seats forward modulo `len`. -/
def dirSteps (len : Nat) (d : Int) : Nat := if d = 1 then 1 else len - 1

/-- Identity permutation, used to instantiate the abstract `shuffleFn` in
concrete evaluations (any permutation gives the same card counts). -/
def idShuffle : List Card → List Card := fun l => l

/-! Concrete fixtures used by the counterexamples and witnesses below. -/

def cardRed5 : Card := { id := "r5", color := "red", digit := some 5 }
def cardGreen5 : Card := { id := "g5", color := "green", digit := some 5 }
def cardBlue3 : Card := { id := "b3", color := "blue", digit := some 3 }
def cardBlue7 : Card := { id := "b7", color := "blue", digit := some 7 }
def cardYellow2 : Card := { id := "y2", color := "yellow", digit := some 2 }
def cardWild : Card := { id := "w1", color := "black", action := some ("wild") }
def cardReverse : Card := { id := "rv1", color := "red", action := some ("reverse") }
def cardSkip : Card := { id := "sk1", color := "red", action := some ("skip") }
def cardDrawTwo : Card := { id := "d2", color := "blue", action := some ("draw two") }
def cardDrawFour : Card := { id := "d4", color := "black", action := some ("draw four") }
def cardT5 : Card := { id := "t5", color := "red", digit := some 8 }
def cardT6 : Card := { id := "t6", color := "blue", digit := some 9 }
def cardD9 : Card := { id := "d9", color := "yellow", digit := some 4 }

def mkPlayer (i : String) (cs : List Card) : Player := { id := i, name := i, cards := cs }

/-- Two seats, both holding cards, seat 0 to act. -/
def stateTwoSeats : GameState :=
  { players := [mkPlayer ("0") [cardRed5], mkPlayer ("1") [cardBlue3]],
    curPlayer := 0, direction := 1, tableStk := [cardGreen5], drawingStk := [],
    sumDrawing := 0, lastPlayerDrew := false, playersFinished := [] }

/-- Three seats, seat 0 holds only a wild card. -/
def stateWildLast : GameState :=
  { players := [mkPlayer ("0") [cardWild], mkPlayer ("1") [cardRed5], mkPlayer ("2") [cardBlue3]],
    curPlayer := 0, direction := 1, tableStk := [cardGreen5], drawingStk := [],
    sumDrawing := 0, lastPlayerDrew := false, playersFinished := [] }

def deckWildLast : List Card := [cardWild, cardRed5, cardBlue3, cardGreen5]

/-- Four seats; seats 0 and 2 already finished (order [2,0]); seat 1 to act
holding only a wild card; seat 3 still holds two cards. -/
def stateFinishWild : GameState :=
  { players := [mkPlayer ("0") [], mkPlayer ("1") [cardWild], mkPlayer ("2") [],
                mkPlayer ("3") [cardRed5, cardBlue3]],
    curPlayer := 1, direction := 1, tableStk := [cardGreen5], drawingStk := [],
    sumDrawing := 0, lastPlayerDrew := false, playersFinished := [2, 0] }

/-- Same shape as `stateFinishWild`, but the final card is a plain digit card
matching the table color. -/
def stateFinishPlain : GameState :=
  { players := [mkPlayer ("0") [], mkPlayer ("1") [cardBlue7], mkPlayer ("2") [],
                mkPlayer ("3") [cardRed5, cardGreen5]],
    curPlayer := 1, direction := 1, tableStk := [cardBlue3], drawingStk := [],
    sumDrawing := 0, lastPlayerDrew := false, playersFinished := [2, 0] }

def deckFinish : List Card := [cardWild, cardBlue7, cardRed5, cardBlue3, cardGreen5]

/-- Draw pile holds a single card while the table pile holds seven: the next
draw triggers the exhaustion reshuffle. -/
def stateReshuffle : GameState :=
  { players := [mkPlayer ("0") [cardRed5], mkPlayer ("1") [cardBlue3]],
    curPlayer := 0, direction := 1,
    tableStk := [cardGreen5, cardDrawTwo, cardDrawFour, cardWild, cardReverse, cardT5, cardT6],
    drawingStk := [cardD9],
    sumDrawing := 0, lastPlayerDrew := false, playersFinished := [] }

/-- Orchestrator scenario: seat 0 to act holds only `cardYellow2` (illegal
against the blue-3 table top), while `cardBlue7` — legal, but not in the
hand — exists in the deck. -/
def stateOrch : GameState :=
  { players := [mkPlayer ("0") [cardYellow2], mkPlayer ("1") [cardRed5]],
    curPlayer := 0, direction := 1, tableStk := [cardBlue3], drawingStk := [],
    sumDrawing := 0, lastPlayerDrew := false, playersFinished := [] }

def deckOrch : List Card := [cardBlue7, cardYellow2, cardRed5, cardBlue3]

/-- Response naming a card that is not in the acting seat's hand, with the
advisory validity flag set. -/
def respRogue : LLMMoveResponse :=
  { action := "play", card_id := some ("b7"), isValid := true }

/-- Three seats where only the current seat (index 1) still holds cards. -/
def stateLoneSeat : GameState :=
  { players := [mkPlayer ("0") [], mkPlayer ("1") [cardRed5], mkPlayer ("2") []],
    curPlayer := 1, direction := 1, tableStk := [cardGreen5], drawingStk := [],
    sumDrawing := 0, lastPlayerDrew := false, playersFinished := [0, 2] }

/-! Arithmetic facts about `wrapMod` and `stepIdx`. -/

/-- On nonnegative input, the JavaScript double-mod wrap agrees with the
Euclidean remainder. -/
theorem wrapMod_eq_emod_of_nonneg (n m : Int) (hn : 0 ≤ n) (hm : 0 < m) :
    wrapMod n m = n % m := by
  unfold wrapMod
  rw [Int.tmod_eq_emod hn (le_of_lt hm)]
  have h0 : 0 ≤ n % m := Int.emod_nonneg n (by omega)
  rw [Int.tmod_eq_emod (by omega) (le_of_lt hm)]
  have h1 : n % m + m = n % m + m * 1 := by ring
  rw [h1, Int.add_mul_emod_self_left]
  exact Int.emod_emod_of_dvd n dvd_rfl

theorem stepIdx_one (len i : Nat) (hlen : 0 < len) :
    stepIdx len 1 i = (i + 1) % len := by
  unfold stepIdx
  have h1 : ((i : Int) + 1 * 1) = ((i + 1 : Nat) : Int) := by push_cast; ring
  rw [h1, wrapMod_eq_emod_of_nonneg _ _ (by positivity) (by exact_mod_cast hlen)]
  rw [← Int.ofNat_emod, Int.toNat_natCast]

theorem stepIdx_negOne (len i : Nat) (hlen : 0 < len) (hi : i < len) :
    stepIdx len (-1) i = (i + (len - 1)) % len := by
  unfold stepIdx
  rcases Nat.eq_zero_or_pos i with hz | hpos
  · subst hz
    rcases Nat.lt_or_ge len 2 with h2 | h2
    · interval_cases len
      decide
    · have hm1 : (-1 : Int).tmod (len : Int) = -1 := by
        have hd1 : (1 : Int).tdiv (len : Int) = 0 :=
          Int.tdiv_eq_zero_of_lt (by omega) (by exact_mod_cast h2)
        have hd2 : (-1 : Int).tdiv (len : Int) = 0 := by
          rw [show (-1 : Int) = -(1 : Int) by ring, Int.neg_tdiv, hd1]
          rfl
        have hsum := Int.tdiv_add_tmod (-1) (len : Int)
        rw [hd2] at hsum
        omega
      have hstep : (((0 : Nat) : Int)) + 1 * (-1) = -1 := by norm_num
      rw [hstep]
      unfold wrapMod
      rw [hm1]
      have hnn : (0 : Int) ≤ -1 + (len : Int) := by omega
      rw [Int.tmod_eq_emod hnn (by omega)]
      have hval : (-1 + (len : Int)) % (len : Int) = ((len : Nat) : Int) - 1 := by
        rw [Int.emod_eq_of_lt (by omega) (by omega)]
        ring
      rw [hval]
      have hr : ((0 : Nat) + (len - 1)) % len = len - 1 := by
        rw [Nat.zero_add, Nat.mod_eq_of_lt (by omega)]
      rw [hr]
      omega
  · have h1 : ((i : Int) + 1 * (-1)) = ((i - 1 : Nat) : Int) := by
      have : ((i - 1 : Nat) : Int) = (i : Int) - 1 := by
        push_cast [hpos]
        ring
      rw [this]; ring
    rw [h1, wrapMod_eq_emod_of_nonneg _ _ (by positivity) (by exact_mod_cast hlen)]
    rw [← Int.ofNat_emod, Int.toNat_natCast]
    have h2 : i + (len - 1) = (i - 1) + len := by omega
    rw [h2, Nat.add_mod_right]

/-- Both directions step by a fixed forward offset `dirSteps len d` modulo
the seat count. -/
theorem stepIdx_eq_dirSteps (len : Nat) (d : Int) (i : Nat)
    (hd : d = 1 ∨ d = -1) (hlen : 0 < len) (hi : i < len) :
    stepIdx len d i = (i + dirSteps len d) % len := by
  rcases hd with h | h <;> subst h
  · rw [stepIdx_one len i hlen]
    rfl
  · rw [stepIdx_negOne len i hlen hi]
    rfl

theorem stepIdx_lt (len : Nat) (d : Int) (i : Nat)
    (hd : d = 1 ∨ d = -1) (hlen : 0 < len) (hi : i < len) :
    stepIdx len d i < len := by
  rw [stepIdx_eq_dirSteps len d i hd hlen hi]
  exact Nat.mod_lt _ hlen

theorem stepIdx_iterate (len : Nat) (d : Int) (hd : d = 1 ∨ d = -1) (hlen : 0 < len) :
    ∀ (k i : Nat), i < len → (stepIdx len d)^[k] i = (i + k * dirSteps len d) % len := by
  intro k
  induction k with
  | zero =>
    intro i hi
    simp [Nat.mod_eq_of_lt hi]
  | succ k ih =>
    intro i hi
    rw [Function.iterate_succ_apply, stepIdx_eq_dirSteps len d i hd hlen hi]
    have hlt : (i + dirSteps len d) % len < len := Nat.mod_lt _ hlen
    rw [ih _ hlt, Nat.mod_add_mod]
    congr 1
    rw [Nat.succ_mul]
    omega

theorem stepIdx_iterate_lt (len : Nat) (d : Int) (hd : d = 1 ∨ d = -1) (hlen : 0 < len)
    (k i : Nat) (hi : i < len) : (stepIdx len d)^[k] i < len := by
  rw [stepIdx_iterate len d hd hlen k i hi]
  exact Nat.mod_lt _ hlen

/-- From any in-range start, the stepping orbit reaches every in-range seat
within `len` iterations (the step offset is coprime to the seat count). -/
theorem orbit_coverage (len : Nat) (d : Int) (hd : d = 1 ∨ d = -1) (hlen : 0 < len)
    (i j : Nat) (hi : i < len) (hj : j < len) :
    ∃ k, k < len ∧ (stepIdx len d)^[k] i = j := by
  rcases hd with h | h <;> subst h
  · refine ⟨(len + j - i) % len, Nat.mod_lt _ hlen, ?_⟩
    rw [stepIdx_iterate len 1 (Or.inl rfl) hlen _ i hi]
    have hds : dirSteps len 1 = 1 := rfl
    rw [hds, Nat.mul_one]
    have h1 : (i + (len + j - i) % len) % len = (i + (len + j - i)) % len :=
      Nat.ModEq.add_left i (Nat.mod_modEq _ _)
    have h2 : i + (len + j - i) = len + j := by omega
    calc (i + (len + j - i) % len) % len = (i + (len + j - i)) % len := h1
      _ = (len + j) % len := by rw [h2]
      _ = j % len := Nat.add_mod_left len j
      _ = j := Nat.mod_eq_of_lt hj
  · refine ⟨(len + i - j) % len, Nat.mod_lt _ hlen, ?_⟩
    rw [stepIdx_iterate len (-1) (Or.inr rfl) hlen _ i hi]
    have hds : dirSteps len (-1) = len - 1 := by unfold dirSteps; norm_num
    rw [hds]
    have h1 : (i + (len + i - j) % len * (len - 1)) % len
        = (i + (len + i - j) * (len - 1)) % len :=
      Nat.ModEq.add_left i ((Nat.mod_modEq _ _).mul_right _)
    have hml : (len + i - j) * (len - 1) + (len + i - j) = (len + i - j) * len := by
      have h3 : (len + i - j) * (len - 1) + (len + i - j) * 1
          = (len + i - j) * ((len - 1) + 1) := (Nat.mul_add (len + i - j) _ _).symm
      have h4 : (len - 1) + 1 = len := by omega
      calc (len + i - j) * (len - 1) + (len + i - j)
          = (len + i - j) * (len - 1) + (len + i - j) * 1 := by ring
        _ = (len + i - j) * ((len - 1) + 1) := h3
        _ = (len + i - j) * len := by rw [h4]
    have ha : (i + (len + i - j) * len) % len = i % len := Nat.add_mul_mod_self_right i _ len
    have hb : (j + (len + i - j)) % len = i % len := by
      have hjm : j + (len + i - j) = len + i := by omega
      rw [hjm]
      exact Nat.add_mod_left len i
    have hc : (i + (len + i - j) * (len - 1) + (len + i - j)) % len
        = (j + (len + i - j)) % len := by
      have hNm : i + (len + i - j) * (len - 1) + (len + i - j) = i + (len + i - j) * len := by
        omega
      rw [hNm, ha, hb]
    have hd2 : (i + (len + i - j) * (len - 1)) % len = j % len :=
      Nat.ModEq.add_right_cancel' (len + i - j) hc
    calc (i + (len + i - j) % len * (len - 1)) % len
        = (i + (len + i - j) * (len - 1)) % len := h1
      _ = j % len := hd2
      _ = j := Nat.mod_eq_of_lt hj

/-- Within a full cycle, the orbit does not return to its start. -/
theorem orbit_ne_self (len : Nat) (d : Int) (hd : d = 1 ∨ d = -1) (hlen : 0 < len)
    (i k : Nat) (hi : i < len) (hk0 : 0 < k) (hklen : k < len) :
    (stepIdx len d)^[k] i ≠ i := by
  intro hcontra
  rw [stepIdx_iterate len d hd hlen k i hi] at hcontra
  have hcop : Nat.Coprime len (dirSteps len d) := by
    rcases hd with h | h <;> subst h
    · exact Nat.coprime_one_right len
    · have h1 : dirSteps len (-1) = len - 1 := by unfold dirSteps; norm_num
      rw [h1]
      exact (Nat.coprime_self_sub_right (by omega)).mpr (Nat.coprime_one_right len)
  have h1 : (i + k * dirSteps len d) % len = (i + 0) % len := by
    rw [hcontra, Nat.add_zero, Nat.mod_eq_of_lt hi]
  have h2 : k * dirSteps len d ≡ 0 [MOD len] := Nat.ModEq.add_left_cancel' i h1
  have h3 : len ∣ k * dirSteps len d := (Nat.modEq_zero_iff_dvd).mp h2
  have h4 : len ∣ k := hcop.dvd_of_dvd_mul_right h3
  have h5 : k = 0 := Nat.eq_zero_of_dvd_of_lt h4 hklen
  omega

theorem skipEmptySeats_zero (ps : List Player) (d : Int) (i : Nat) :
    skipEmptySeats ps d 0 i = i := rfl

theorem skipEmptySeats_succ (ps : List Player) (d : Int) (f i : Nat) :
    skipEmptySeats ps d (f + 1) i
      = if seatEmpty ps i then skipEmptySeats ps d f (stepIdx ps.length d i) else i := rfl

theorem moveForward_zero (ps : List Player) (d : Int) (i : Nat) :
    moveForward ps d i 0 = i := rfl

theorem moveForward_succ (ps : List Player) (d : Int) (i st : Nat) :
    moveForward ps d i (st + 1) = moveForward ps d (advanceOne ps d i) st := rfl

/-- The fueled skip loop stops exactly at the first index of the orbit whose
seat is non-empty, provided the fuel covers that index. -/
theorem skipEmptySeats_first (ps : List Player) (d : Int) :
    ∀ (k fuel i : Nat), k ≤ fuel →
      (∀ m, m < k → seatEmpty ps ((stepIdx ps.length d)^[m] i) = true) →
      seatEmpty ps ((stepIdx ps.length d)^[k] i) = false →
      skipEmptySeats ps d fuel i = (stepIdx ps.length d)^[k] i := by
  intro k
  induction k with
  | zero =>
    intro fuel i _ _ hne
    rw [Function.iterate_zero_apply] at hne ⊢
    cases fuel with
    | zero => rfl
    | succ f =>
      rw [skipEmptySeats_succ, hne]
      simp
  | succ k ih =>
    intro fuel i hk hemp hne
    cases fuel with
    | zero => omega
    | succ f =>
      have h0 : seatEmpty ps i = true := by
        have := hemp 0 (Nat.succ_pos k)
        rwa [Function.iterate_zero_apply] at this
      have hstep : skipEmptySeats ps d (f + 1) i
          = skipEmptySeats ps d f (stepIdx ps.length d i) := by
        rw [skipEmptySeats_succ, h0]
        simp
      rw [hstep, Function.iterate_succ_apply]
      exact ih f (stepIdx ps.length d i) (by omega)
        (fun m hm => by
          rw [← Function.iterate_succ_apply]
          exact hemp (m + 1) (by omega))
        (by rw [← Function.iterate_succ_apply]; exact hne)

/-- One resolver step lands on the first non-empty seat of the stepping
orbit: it is `k` applications of the raw step for some minimal positive
`k ≤ len`, and that seat holds cards — provided some seat holds cards. -/
theorem advanceOne_min (ps : List Player) (d : Int)
    (hd : d = 1 ∨ d = -1) (hlen : 0 < ps.length)
    (i : Nat) (hi : i < ps.length)
    (t : Nat) (ht : t < ps.length) (htne : seatEmpty ps t = false) :
    ∃ k, 0 < k ∧ k ≤ ps.length ∧
      advanceOne ps d i = (stepIdx ps.length d)^[k] i ∧
      seatEmpty ps ((stepIdx ps.length d)^[k] i) = false ∧
      ∀ m, 0 < m → m < k → seatEmpty ps ((stepIdx ps.length d)^[m] i) = true := by
  have hgi : stepIdx ps.length d i < ps.length := stepIdx_lt ps.length d i hd hlen hi
  obtain ⟨k0, hk0len, hk0⟩ :=
    orbit_coverage ps.length d hd hlen (stepIdx ps.length d i) t hgi ht
  have hP : ∃ k, seatEmpty ps ((stepIdx ps.length d)^[k] (stepIdx ps.length d i)) = false :=
    ⟨k0, by rw [hk0]; exact htne⟩
  have hkm := Nat.find_spec hP
  have hkmle : Nat.find hP ≤ k0 := Nat.find_min' hP (by rw [hk0]; exact htne)
  refine ⟨Nat.find hP + 1, Nat.succ_pos _, by omega, ?_, ?_, ?_⟩
  · show skipEmptySeats ps d ps.length (stepIdx ps.length d i) = _
    rw [Function.iterate_succ_apply]
    exact skipEmptySeats_first ps d (Nat.find hP) ps.length (stepIdx ps.length d i)
      (by omega)
      (fun m hm => by
        have hb := Nat.find_min hP hm
        revert hb
        cases seatEmpty ps ((stepIdx ps.length d)^[m] (stepIdx ps.length d i)) <;> simp)
      hkm
  · rw [Function.iterate_succ_apply]
    exact hkm
  · intro m hm0 hmk
    obtain ⟨m', rfl⟩ : ∃ m', m = m' + 1 := ⟨m - 1, by omega⟩
    rw [Function.iterate_succ_apply]
    have hb := Nat.find_min hP (by omega : m' < Nat.find hP)
    revert hb
    cases seatEmpty ps ((stepIdx ps.length d)^[m'] (stepIdx ps.length d i)) <;> simp

/-- One resolver step returns an in-range seat holding cards. -/
theorem advanceOne_nonempty (ps : List Player) (d : Int)
    (hd : d = 1 ∨ d = -1) (hlen : 0 < ps.length)
    (i : Nat) (hi : i < ps.length)
    (t : Nat) (ht : t < ps.length) (htne : seatEmpty ps t = false) :
    seatEmpty ps (advanceOne ps d i) = false ∧ advanceOne ps d i < ps.length := by
  obtain ⟨k, _, _, heq, hne, _⟩ := advanceOne_min ps d hd hlen i hi t ht htne
  rw [heq]
  exact ⟨hne, stepIdx_iterate_lt ps.length d hd hlen k i hi⟩

/-- With exactly two seats holding cards, one resolver step from either of
them lands on the other — in both directions. -/
theorem advanceOne_two (ps : List Player) (d : Int) (hd : d = 1 ∨ d = -1)
    (hlen : 0 < ps.length) (i j : Nat) (hi : i < ps.length) (hj : j < ps.length)
    (hij : i ≠ j) (hjne : seatEmpty ps j = false)
    (honly : ∀ t, t < ps.length → t ≠ i → t ≠ j → seatEmpty ps t = true) :
    advanceOne ps d i = j := by
  obtain ⟨k, hk0, hklen, heq, hne, hmin⟩ := advanceOne_min ps d hd hlen i hi j hj hjne
  obtain ⟨kj, hkjlen, hkj⟩ := orbit_coverage ps.length d hd hlen i j hi hj
  have hkj0 : 0 < kj := by
    rcases Nat.eq_zero_or_pos kj with h | h
    · subst h
      rw [Function.iterate_zero_apply] at hkj
      omega
    · exact h
  have hkkj : k ≤ kj := by
    by_contra hgt
    push_neg at hgt
    have hcontra := hmin kj hkj0 hgt
    rw [hkj, hjne] at hcontra
    exact Bool.noConfusion hcontra
  have hklt : k < ps.length := lt_of_le_of_lt hkkj hkjlen
  have hres_lt : (stepIdx ps.length d)^[k] i < ps.length :=
    stepIdx_iterate_lt ps.length d hd hlen k i hi
  have hres_ne_i : (stepIdx ps.length d)^[k] i ≠ i :=
    orbit_ne_self ps.length d hd hlen i k hi hk0 hklt
  by_contra hne_j
  rw [heq] at hne_j
  have hempty := honly _ hres_lt hres_ne_i hne_j
  rw [hempty] at hne
  exact Bool.noConfusion hne

/-- With only one seat holding cards, a resolver step from that seat returns
it unchanged. -/
theorem advanceOne_self (ps : List Player) (d : Int) (hd : d = 1 ∨ d = -1)
    (hlen : 0 < ps.length) (i : Nat) (hi : i < ps.length)
    (hine : seatEmpty ps i = false)
    (honly : ∀ t, t < ps.length → t ≠ i → seatEmpty ps t = true) :
    advanceOne ps d i = i := by
  obtain ⟨k, _, _, heq, hne, _⟩ := advanceOne_min ps d hd hlen i hi i hi hine
  rw [heq]
  by_contra h
  have hlt := stepIdx_iterate_lt ps.length d hd hlen k i hi
  have hempty := honly _ hlt h
  rw [hempty] at hne
  exact Bool.noConfusion hne

/-- The stepping loop of the turn resolver, run a positive number of times,
terminates on an in-range seat holding cards. -/
theorem moveForward_nonempty (ps : List Player) (d : Int)
    (hd : d = 1 ∨ d = -1) (hlen : 0 < ps.length)
    (t : Nat) (ht : t < ps.length) (htne : seatEmpty ps t = false) :
    ∀ (steps i : Nat), i < ps.length →
      (0 < steps → seatEmpty ps (moveForward ps d i steps) = false) ∧
        moveForward ps d i steps < ps.length := by
  intro steps
  induction steps with
  | zero =>
    intro i hi
    rw [moveForward_zero]
    exact ⟨fun h => absurd h (by omega), hi⟩
  | succ st ih =>
    intro i hi
    have ha := advanceOne_nonempty ps d hd hlen i hi t ht htne
    rw [moveForward_succ]
    cases st with
    | zero =>
      rw [moveForward_zero]
      exact ⟨fun _ => ha.1, ha.2⟩
    | succ st' =>
      have hrec := ih (advanceOne ps d i) ha.2
      exact ⟨fun _ => hrec.1 (Nat.succ_pos _), hrec.2⟩

/-- With only one seat holding cards, the stepping loop is a no-op from that
seat, for any number of steps. -/
theorem moveForward_self (ps : List Player) (d : Int) (hd : d = 1 ∨ d = -1)
    (hlen : 0 < ps.length) (i : Nat) (hi : i < ps.length)
    (hine : seatEmpty ps i = false)
    (honly : ∀ t, t < ps.length → t ≠ i → seatEmpty ps t = true) :
    ∀ steps, moveForward ps d i steps = i := by
  intro steps
  induction steps with
  | zero => rfl
  | succ st ih =>
    rw [moveForward_succ, advanceOne_self ps d hd hlen i hi hine honly]
    exact ih

/-! Facts about `modifyHand`, `seatEmpty` and `doDraw`. -/

theorem modifyHand_length (ps : List Player) :
    ∀ (i : Nat) (f : List Card → List Card), (modifyHand ps i f).length = ps.length := by
  induction ps with
  | nil => intro i f; rfl
  | cons p rest ih =>
    intro i f
    cases i with
    | zero => rfl
    | succ j => simpa [modifyHand] using ih j f

theorem modifyHand_get?_ne (ps : List Player) :
    ∀ (i j : Nat) (f : List Card → List Card), j ≠ i →
      (modifyHand ps i f).get? j = ps.get? j := by
  induction ps with
  | nil => intro i j f _; rfl
  | cons p rest ih =>
    intro i j f hne
    cases i with
    | zero =>
      cases j with
      | zero => omega
      | succ j' => simp [modifyHand]
    | succ i' =>
      cases j with
      | zero => simp [modifyHand]
      | succ j' =>
        simp only [modifyHand, List.get?_cons_succ]
        exact ih i' j' f (by omega)

theorem modifyHand_get?_self (ps : List Player) :
    ∀ (i : Nat) (f : List Card → List Card),
      (modifyHand ps i f).get? i
        = (ps.get? i).map (fun p => { p with cards := f p.cards }) := by
  induction ps with
  | nil => intro i f; rfl
  | cons p rest ih =>
    intro i f
    cases i with
    | zero => rfl
    | succ i' =>
      simp only [modifyHand, List.get?_cons_succ]
      exact ih i' f

/-- A hand rewrite that leaves the stored list unchanged leaves the whole
player list unchanged. -/
theorem modifyHand_eq_self (ps : List Player) :
    ∀ (i : Nat) (f : List Card → List Card),
      (∀ p, ps.get? i = some p → f p.cards = p.cards) →
      modifyHand ps i f = ps := by
  induction ps with
  | nil => intro i f _; rfl
  | cons p rest ih =>
    intro i f hf
    cases i with
    | zero =>
      have := hf p rfl
      simp [modifyHand, this]
    | succ i' =>
      simp only [modifyHand, List.cons.injEq, true_and]
      exact ih i' f (fun q hq => hf q (by simpa using hq))

theorem seatEmpty_modifyHand_ne (ps : List Player) (i j : Nat)
    (f : List Card → List Card) (h : j ≠ i) :
    seatEmpty (modifyHand ps i f) j = seatEmpty ps j := by
  unfold seatEmpty
  rw [modifyHand_get?_ne ps i j f h]

theorem doDraw_players_length (shuffleFn : List Card → List Card) (s : GameState) :
    (doDraw shuffleFn s).1.players.length = s.players.length := by
  unfold doDraw
  split <;> dsimp only <;> split <;> simp [modifyHand_length]

theorem doDraw_curPlayer (shuffleFn : List Card → List Card) (s : GameState) :
    (doDraw shuffleFn s).1.curPlayer = s.curPlayer := by
  unfold doDraw
  split <;> dsimp only <;> split <;> rfl

theorem doDraw_direction (shuffleFn : List Card → List Card) (s : GameState) :
    (doDraw shuffleFn s).1.direction = s.direction := by
  unfold doDraw
  split <;> dsimp only <;> split <;> rfl

/-- Drawing cards never empties a seat: the drawn cards are prepended to the
current player's hand and other hands are untouched. -/
theorem doDraw_preserves_nonempty (shuffleFn : List Card → List Card) (s : GameState)
    (t : Nat) (hne : seatEmpty s.players t = false) :
    seatEmpty (doDraw shuffleFn s).1.players t = false := by
  have key : ∀ (drawn : List Card),
      seatEmpty (modifyHand s.players s.curPlayer (fun cs => drawn ++ cs)) t = false := by
    intro drawn
    rcases eq_or_ne t s.curPlayer with heq | hnee
    · subst heq
      unfold seatEmpty at hne ⊢
      rw [modifyHand_get?_self]
      cases hget : s.players.get? s.curPlayer with
      | none => simp
      | some p =>
        rw [hget] at hne
        simp only [Option.map_some', List.length_append]
        simp only [beq_eq_false_iff_ne] at hne ⊢
        omega
    · rw [seatEmpty_modifyHand_ne s.players s.curPlayer t _ hnee]
      exact hne
  unfold doDraw
  split <;> dsimp only <;> split <;> exact key _

/-! Shape lemmas for `getNextPlayer`, one per card-action case. -/

theorem getNextPlayer_wild (s : GameState) (c : Card) (h : c.action = some ("wild")) :
    getNextPlayer s (some c) = (s.direction, s.curPlayer) := by
  obtain ⟨cid, ccol, cdig, cact⟩ := c
  have h' : cact = some ("wild") := h
  subst h'
  rfl

theorem getNextPlayer_reverse (s : GameState) (c : Card) (h : c.action = some ("reverse")) :
    getNextPlayer s (some c)
      = (s.direction * -1, moveForward s.players (s.direction * -1) s.curPlayer 1) := by
  obtain ⟨cid, ccol, cdig, cact⟩ := c
  have h' : cact = some ("reverse") := h
  subst h'
  rfl

theorem getNextPlayer_skip (s : GameState) (c : Card) (h : c.action = some ("skip")) :
    getNextPlayer s (some c)
      = (s.direction, moveForward s.players s.direction s.curPlayer 2) := by
  obtain ⟨cid, ccol, cdig, cact⟩ := c
  have h' : cact = some ("skip") := h
  subst h'
  rfl

theorem getNextPlayer_noaction (s : GameState) (c : Card) (h : c.action = none) :
    getNextPlayer s (some c)
      = (s.direction, moveForward s.players s.direction s.curPlayer 1) := by
  obtain ⟨cid, ccol, cdig, cact⟩ := c
  have h' : cact = (none : Option String) := h
  subst h'
  rfl

theorem getNextPlayer_none (s : GameState) :
    getNextPlayer s none
      = (s.direction, moveForward s.players s.direction s.curPlayer 1) := rfl

/-- Every `getNextPlayer` result is of one of three shapes: two resolver
steps (skip), one resolver step, or the unchanged current player — the last
exactly for a played "wild"; the direction component is the old direction,
possibly negated. -/
theorem getNextPlayer_eq_cases (s : GameState) (card : Option Card) :
    ∃ dd, (getNextPlayer s card = (dd, moveForward s.players dd s.curPlayer 2) ∨
           getNextPlayer s card = (dd, moveForward s.players dd s.curPlayer 1) ∨
           (getNextPlayer s card = (dd, s.curPlayer) ∧ card.bind Card.action = some ("wild"))) ∧
      (dd = s.direction ∨ dd = s.direction * -1) := by
  refine ⟨if card.bind Card.action == some ("reverse") then s.direction * -1 else s.direction,
    ?_, ?_⟩
  · unfold getNextPlayer
    dsimp only
    split
    · exact Or.inl rfl
    · split
      · exact Or.inr (Or.inl rfl)
      · refine Or.inr (Or.inr ⟨rfl, ?_⟩)
        rename_i hwild
        simpa using hwild
  · split
    · exact Or.inr rfl
    · exact Or.inl rfl

/-- When `getNextPlayer` moves the turn to a different seat, that seat holds
cards (and is in range) — provided the state is well-formed and some seat
holds cards. -/
theorem getNextPlayer_ne_nonempty (s : GameState) (card : Option Card)
    (hd : s.direction = 1 ∨ s.direction = -1)
    (hlen : 0 < s.players.length) (hcur : s.curPlayer < s.players.length)
    (t : Nat) (ht : t < s.players.length) (htne : seatEmpty s.players t = false)
    (hne : (getNextPlayer s card).2 ≠ s.curPlayer) :
    seatEmpty s.players (getNextPlayer s card).2 = false ∧
      (getNextPlayer s card).2 < s.players.length := by
  obtain ⟨dd, hcases, hdd⟩ := getNextPlayer_eq_cases s card
  have hddpm : dd = 1 ∨ dd = -1 := by
    rcases hdd with h | h <;> rcases hd with h2 | h2 <;> rw [h, h2] <;> norm_num
  rcases hcases with h | h | ⟨h, _⟩
  · rw [h]
    have hmf := moveForward_nonempty s.players dd hddpm hlen t ht htne 2 s.curPlayer hcur
    exact ⟨hmf.1 (by omega), hmf.2⟩
  · rw [h]
    have hmf := moveForward_nonempty s.players dd hddpm hlen t ht htne 1 s.curPlayer hcur
    exact ⟨hmf.1 (by omega), hmf.2⟩
  · rw [h] at hne
    simp at hne

/-- When the current seat is the only seat holding cards, `getNextPlayer`
returns it unchanged for every played card. -/
theorem getNextPlayer_unique_active (s : GameState) (card : Option Card)
    (hd : s.direction = 1 ∨ s.direction = -1)
    (hlen : 0 < s.players.length) (hcur : s.curPlayer < s.players.length)
    (hcurne : seatEmpty s.players s.curPlayer = false)
    (honly : ∀ t, t < s.players.length → t ≠ s.curPlayer → seatEmpty s.players t = true) :
    (getNextPlayer s card).2 = s.curPlayer := by
  obtain ⟨dd, hcases, hdd⟩ := getNextPlayer_eq_cases s card
  have hddpm : dd = 1 ∨ dd = -1 := by
    rcases hdd with h | h <;> rcases hd with h2 | h2 <;> rw [h, h2] <;> norm_num
  have hself := moveForward_self s.players dd hddpm hlen s.curPlayer hcur hcurne honly
  rcases hcases with h | h | ⟨h, _⟩ <;> rw [h] <;> simp [hself]

/-! Claim theorems. -/

/-- C5: for every current index, direction and assignment of hands, a played
card whose action is "wild" consumes zero steps in `getNextPlayer`: the
direction is untouched and the current actor's own index is returned
unchanged. -/
theorem c5_wild_zero_steps (s : GameState) (c : Card) (h : c.action = some ("wild")) :
    getNextPlayer s (some c) = (s.direction, s.curPlayer) :=
  getNextPlayer_wild s c h

theorem c5_wild_zero_steps_witness :
    getNextPlayer stateTwoSeats (some cardWild) = (1, 0) :=
  c5_wild_zero_steps stateTwoSeats cardWild rfl

/-- C9: first, under the precondition that some seat's hand is non-empty
(with a well-formed ±1 direction and in-range start), the stepping loop of
the turn resolver terminates within its `players.length` fuel and never
returns a finished (empty-hand) seat, for any positive number of steps;
second, with exactly one non-finished seat remaining — the current actor —
`getNextPlayer` returns that seat unchanged regardless of the played card. -/
theorem c9_resolver_terminates_never_finished :
    (∀ (ps : List Player) (d : Int) (i steps t : Nat),
        (d = 1 ∨ d = -1) → 0 < ps.length → i < ps.length →
        t < ps.length → seatEmpty ps t = false → 0 < steps →
        seatEmpty ps (moveForward ps d i steps) = false) ∧
    (∀ (s : GameState) (card : Option Card),
        (s.direction = 1 ∨ s.direction = -1) →
        0 < s.players.length → s.curPlayer < s.players.length →
        seatEmpty s.players s.curPlayer = false →
        (∀ t, t < s.players.length → t ≠ s.curPlayer → seatEmpty s.players t = true) →
        (getNextPlayer s card).2 = s.curPlayer) := by
  constructor
  · intro ps d i steps t hd hlen hi ht htne hsteps
    exact (moveForward_nonempty ps d hd hlen t ht htne steps i hi).1 hsteps
  · intro s card hd hlen hcur hcurne honly
    exact getNextPlayer_unique_active s card hd hlen hcur hcurne honly

theorem c9_resolver_witness :
    seatEmpty stateTwoSeats.players (moveForward stateTwoSeats.players 1 0 1) = false ∧
      (getNextPlayer stateLoneSeat (some cardSkip)).2 = stateLoneSeat.curPlayer := by
  constructor
  · exact c9_resolver_terminates_never_finished.1 stateTwoSeats.players 1 0 1 1
      (Or.inl rfl) (by decide) (by decide) (by decide) (by decide) (by decide)
  · exact c9_resolver_terminates_never_finished.2 stateLoneSeat (some cardSkip)
      (Or.inl rfl) (by decide) (by decide) (by decide)
      (fun t ht hne => by
        have h3 : t < 3 := ht
        have : t = 0 ∨ t = 2 := by
          have h1 : t ≠ 1 := hne
          omega
        rcases this with h | h <;> subst h <;> rfl)

/-- C2 (counterexample): in `stateTwoSeats` — exactly two non-finished
seats, seat 0 to act — playing a reverse hands the turn to seat 1, not back
to seat 0: the claim that the reverse returns the turn to the seat that
played it is false. -/
theorem c2_reverse_counterexample :
    (getNextPlayer stateTwoSeats (some cardReverse)).2 = 1 ∧
      (getNextPlayer stateTwoSeats (some cardReverse)).2 ≠ stateTwoSeats.curPlayer := by
  constructor
  · decide
  · decide

/-- C2 (amended): with exactly two non-finished seats, a reverse played by
the current actor sends the turn to the OTHER non-finished seat — exactly
where a plain (actionless) card would send it, so the direction flip is a
no-op on turn order; it does not return the turn to the player of the
reverse. -/
theorem c2_reverse_two_seats_amended (s : GameState) (rc pc : Card) (j : Nat)
    (hrc : rc.action = some ("reverse")) (hpc : pc.action = none)
    (hd : s.direction = 1 ∨ s.direction = -1)
    (hlen : 0 < s.players.length) (hcur : s.curPlayer < s.players.length)
    (hj : j < s.players.length) (hij : s.curPlayer ≠ j)
    (_hcurne : seatEmpty s.players s.curPlayer = false)
    (hjne : seatEmpty s.players j = false)
    (honly : ∀ t, t < s.players.length → t ≠ s.curPlayer → t ≠ j →
      seatEmpty s.players t = true) :
    (getNextPlayer s (some rc)).2 = j ∧
      (getNextPlayer s (some pc)).2 = j ∧ j ≠ s.curPlayer := by
  have hdneg : s.direction * -1 = 1 ∨ s.direction * -1 = -1 := by
    rcases hd with h | h <;> rw [h] <;> norm_num
  have hadv1 : moveForward s.players (s.direction * -1) s.curPlayer 1
      = advanceOne s.players (s.direction * -1) s.curPlayer := by
    rw [moveForward_succ, moveForward_zero]
  have hadv2 : moveForward s.players s.direction s.curPlayer 1
      = advanceOne s.players s.direction s.curPlayer := by
    rw [moveForward_succ, moveForward_zero]
  refine ⟨?_, ?_, fun hh => hij hh.symm⟩
  · rw [getNextPlayer_reverse s rc hrc]
    show moveForward s.players (s.direction * -1) s.curPlayer 1 = j
    rw [hadv1]
    exact advanceOne_two s.players _ hdneg hlen s.curPlayer j hcur hj hij hjne honly
  · rw [getNextPlayer_noaction s pc hpc]
    show moveForward s.players s.direction s.curPlayer 1 = j
    rw [hadv2]
    exact advanceOne_two s.players _ hd hlen s.curPlayer j hcur hj hij hjne honly

theorem c2_reverse_two_seats_amended_witness :
    (getNextPlayer stateTwoSeats (some cardReverse)).2 = 1 ∧
      (getNextPlayer stateTwoSeats (some cardGreen5)).2 = 1 ∧
      (1 : Nat) ≠ stateTwoSeats.curPlayer :=
  c2_reverse_two_seats_amended stateTwoSeats cardReverse cardGreen5 1 rfl rfl
    (Or.inl rfl) (by decide) (by decide) (by decide) (by decide) (by decide) (by decide)
    (fun t ht h1 h2 => by
      have ht2 : t < 2 := ht
      have h10 : t ≠ 0 := h1
      omega)

/-- C6: a proposed play of a resolved card that is illegal per the legality
oracle (against the real table top and `lastPlayerDrew`) makes `move` return
failure synchronously: the legality check precedes every state update in the
source, so the rejection carries the input state unchanged — no hand, pile,
direction, `sumDrawing`, `lastPlayerDrew`, actor or finished-list field is
mutated, and no move event is emitted. -/
theorem c6_illegal_play_rejected (deck : List Card) (shuffleFn : List Card → List Card)
    (s : GameState) (draw : Bool) (cid : String) (c : Card)
    (hcid : cid ≠ "")
    (hfind : getCardById deck cid = some c)
    (hillegal : canPlayCard s.tableStk.head? c s.lastPlayerDrew = false) :
    move deck shuffleFn s draw (some cid) = MoveOutcome.rejected s := by
  have ht : strTruthy (some cid) = true := by
    simp [strTruthy, hcid]
  unfold move
  simp only [ht, if_true, Option.getD_some, hfind, hillegal]
  simp

theorem c6_illegal_play_rejected_witness :
    move deckOrch idShuffle stateOrch false (some ("y2")) = MoveOutcome.rejected stateOrch :=
  c6_illegal_play_rejected deckOrch idShuffle stateOrch false ("y2") cardYellow2
    (by decide) (by decide) (by decide)

/-- C1 (code violates the claim): when a draw triggers the pile-exhaustion
reshuffle, `move` OVERWRITES the remaining draw pile with the shuffled
table remainder instead of extending it, destroying the leftover draw-pile
card(s). In `stateReshuffle` (draw pile `[cardD9]`, table pile of 7), a
single-card draw succeeds but the total card count drops from 10 to 9 — for
every permutation-valued shuffle function. -/
theorem c1_reshuffle_destroys_card (shuffleFn : List Card → List Card)
    (hperm : ∀ l, List.Perm (shuffleFn l) l) :
    totalCards stateReshuffle = 10 ∧
      (move [] shuffleFn stateReshuffle true none).isOngoing = true ∧
      totalCards (move [] shuffleFn stateReshuffle true none).stateOf = 9 := by
  have hlen2 : (shuffleFn [cardT5, cardT6]).length = 2 := (hperm _).length_eq
  have hdo : doDraw shuffleFn stateReshuffle
      = ({ players := [{ id := "0", name := "0",
                         cards := List.take 1 (shuffleFn [cardT5, cardT6]) ++ [cardRed5],
                         isBot := false },
                       mkPlayer ("1") [cardBlue3]],
           curPlayer := 0, direction := 1,
           tableStk := [cardGreen5, cardDrawTwo, cardDrawFour, cardWild, cardReverse],
           drawingStk := List.drop 1 (shuffleFn [cardT5, cardT6]),
           sumDrawing := 0, lastPlayerDrew := true, playersFinished := [] },
         1, List.take 1 (shuffleFn [cardT5, cardT6])) := rfl
  have hmv : move [] shuffleFn stateReshuffle true none
      = MoveOutcome.ongoing
          { (doDraw shuffleFn stateReshuffle).1 with
              direction := (getNextPlayer (doDraw shuffleFn stateReshuffle).1 none).1,
              curPlayer := (getNextPlayer (doDraw shuffleFn stateReshuffle).1 none).2 }
          { curPlayer := 0,
            nxtPlayer := (getNextPlayer (doDraw shuffleFn stateReshuffle).1 none).2,
            card := none,
            draw := some ((doDraw shuffleFn stateReshuffle).2.1),
            cardsToDraw := some ((doDraw shuffleFn stateReshuffle).2.2) } := rfl
  have hplen : (doDraw shuffleFn stateReshuffle).1.players.length = 2 := by
    rw [hdo]
    rfl
  have hnxt : (getNextPlayer (doDraw shuffleFn stateReshuffle).1 none).2 = 1 := by
    rw [getNextPlayer_none]
    show moveForward (doDraw shuffleFn stateReshuffle).1.players
        (doDraw shuffleFn stateReshuffle).1.direction
        (doDraw shuffleFn stateReshuffle).1.curPlayer 1 = 1
    rw [moveForward_succ, moveForward_zero]
    have hdir : (doDraw shuffleFn stateReshuffle).1.direction = 1 := by rw [hdo]
    have hcur : (doDraw shuffleFn stateReshuffle).1.curPlayer = 0 := by rw [hdo]
    rw [hdir, hcur]
    refine advanceOne_two (doDraw shuffleFn stateReshuffle).1.players 1 (Or.inl rfl)
      (by rw [hplen]; omega) 0 1 (by rw [hplen]; omega) (by rw [hplen]; omega)
      (by omega) ?_ ?_
    · rw [hdo]
      rfl
    · intro t htl h0 h1
      rw [hplen] at htl
      omega
  refine ⟨by decide, ?_, ?_⟩
  · rw [hmv]
    rfl
  · rw [hmv]
    show totalCards { (doDraw shuffleFn stateReshuffle).1 with
        direction := (getNextPlayer (doDraw shuffleFn stateReshuffle).1 none).1,
        curPlayer := (getNextPlayer (doDraw shuffleFn stateReshuffle).1 none).2 } = 9
    rw [hdo]
    simp only [totalCards, List.map, List.sum_cons, List.sum_nil,
      List.length_append, List.length_take, List.length_drop, hlen2]
    simp [mkPlayer, cardRed5, cardBlue3]

theorem c1_reshuffle_destroys_card_witness :
    totalCards stateReshuffle = 10 ∧
      (move [] idShuffle stateReshuffle true none).isOngoing = true ∧
      totalCards (move [] idShuffle stateReshuffle true none).stateOf = 9 :=
  c1_reshuffle_destroys_card idShuffle (fun l => List.Perm.refl l)

/-- C3 (counterexample): the orchestrator does NOT independently re-check a
"play" decision against the acting seat's hand. `respRogue` names card
"b7", which is not in seat 0's hand `[cardYellow2]`, yet carries
`isValid := true`: `getLLMMoveModel` returns it untouched instead of falling
back (the fallback here would be a "draw" decision, since `cardYellow2` is
illegal), and dispatching it applies the move — the table gains `cardBlue7`
while the hand is left unchanged. So a decision failing the hand-membership
check is not replaced by the local policy, and the advisory flag is the only
validity check the orchestrator itself performs. -/
theorem c3_no_hand_recheck_counterexample :
    getLLMMoveModel true (some respRogue) stateOrch.tableStk stateOrch.lastPlayerDrew
        [cardYellow2] = respRogue ∧
      respRogue ≠ fallbackMoveBot stateOrch.tableStk stateOrch.lastPlayerDrew [cardYellow2] ∧
      (fallbackMoveBot stateOrch.tableStk stateOrch.lastPlayerDrew [cardYellow2]).action
        = "draw" ∧
      List.all [cardYellow2] (fun x => x.id != ("b7")) = true ∧
      (moveBotDispatch deckOrch idShuffle stateOrch respRogue).isOngoing = true ∧
      (moveBotDispatch deckOrch idShuffle stateOrch respRogue).stateOf.tableStk
        = cardBlue7 :: stateOrch.tableStk ∧
      (moveBotDispatch deckOrch idShuffle stateOrch respRogue).stateOf.players
        = stateOrch.players := by
  decide

/-- C3 (amended): the orchestrator's own validity handling consults exactly
the response's `isValid` flag: a failed or disabled call and an
`isValid = false` response fall back to the local policy, while an
`isValid = true` response is returned exactly as received, with no
hand-membership or oracle re-check inside the orchestrator (oracle legality
is enforced only later, inside `move`, which rejects without falling back —
and hand membership is never checked anywhere). -/
theorem c3_orchestrator_checks_only_flag (tbl : List Card) (drew : Bool)
    (hand : List Card) (r : LLMMoveResponse) :
    getLLMMoveModel true none tbl drew hand = fallbackMoveBot tbl drew hand ∧
      getLLMMoveModel false (some r) tbl drew hand = fallbackMoveBot tbl drew hand ∧
      (r.isValid = false → getLLMMoveModel true (some r) tbl drew hand
        = fallbackMoveBot tbl drew hand) ∧
      (r.isValid = true → getLLMMoveModel true (some r) tbl drew hand = r) := by
  refine ⟨rfl, rfl, ?_, ?_⟩ <;> intro h <;> simp [getLLMMoveModel, h]

theorem c3_orchestrator_checks_only_flag_witness :
    getLLMMoveModel true (some respRogue) [cardBlue3] false [cardYellow2] = respRogue :=
  (c3_orchestrator_checks_only_flag [cardBlue3] false [cardYellow2] respRogue).2.2.2 rfl

/-- C7: the local fallback policy is total and deterministic and implements
exactly the spec's priority: over the oracle-legal subset of the hand, the
first card whose color matches the table top card; else the first card
carrying an action other than plain "wild"; else the first legal card in
hand order; and "draw" when no card in hand is legal. `specFallbackPolicy`
is written from the spec's words; the theorem shows `fallbackMoveBot`
refines it on every input, and that a played card always comes from the
hand and passes the oracle. -/
theorem c7_fallback_total_deterministic (tableStack : List Card) (drew : Bool)
    (hand : List Card) :
    match specFallbackPolicy tableStack.head? drew hand with
    | SpecDecision.draw =>
        (fallbackMoveBot tableStack drew hand).action = "draw" ∧
        (fallbackMoveBot tableStack drew hand).card_id = none
    | SpecDecision.play c =>
        (fallbackMoveBot tableStack drew hand).action = "play" ∧
        (fallbackMoveBot tableStack drew hand).card_id = some c.id ∧
        c ∈ hand ∧ canPlayCard tableStack.head? c drew = true := by
  have hmem : ∀ x, x ∈ hand.filter (fun c => canPlayCard tableStack.head? c drew) →
      x ∈ hand ∧ canPlayCard tableStack.head? x drew = true := by
    intro x hx
    exact List.mem_filter.mp hx
  unfold fallbackMoveBot specFallbackPolicy
  dsimp only
  cases hfil : hand.filter (fun c => canPlayCard tableStack.head? c drew) with
  | nil => simp [hfil]
  | cons a rest =>
    have hamem : a ∈ hand ∧ canPlayCard tableStack.head? a drew = true :=
      hmem a (by rw [hfil]; exact List.mem_cons_self a rest)
    rw [dif_neg (List.cons_ne_nil a rest)]
    cases htop : tableStack.head? with
    | none =>
      rw [htop] at hmem hfil hamem
      cases hact : (a :: rest).find? (fun c => strTruthy c.action && c.action != some ("wild")) with
      | none => simp [hact, Option.or, hamem.1, hamem.2]
      | some b =>
        have hbmem := hmem b (by rw [hfil]; exact List.mem_of_find?_eq_some hact)
        simp [hact, Option.or, hbmem.1, hbmem.2]
    | some tc =>
      rw [htop] at hmem hfil hamem
      cases hcol : (a :: rest).find? (fun c => c.color == tc.color) with
      | none =>
        cases hact : (a :: rest).find? (fun c => strTruthy c.action && c.action != some ("wild")) with
        | none => simp [hcol, hact, Option.or, hamem.1, hamem.2]
        | some b =>
          have hbmem := hmem b (by rw [hfil]; exact List.mem_of_find?_eq_some hact)
          simp [hcol, hact, Option.or, hbmem.1, hbmem.2]
      | some b =>
        have hbmem := hmem b (by rw [hfil]; exact List.mem_of_find?_eq_some hcol)
        simp [hcol, Option.or, hbmem.1, hbmem.2]

/-- C10: `move` never verifies that the played card belongs to the acting
seat's hand. For every card id that resolves in the global deck to a card
legal per the oracle against the real top card, the move succeeds, pushes
that card onto the front of the table pile and applies its side effects,
leaving every hand unchanged when no card with that id is in the actor's
hand (the hand filter removes nothing) — ownership is not a precondition
enforced by the engine. (Hand non-emptiness and the not-finishing condition
only keep the run in the ordinary `ongoing` branch.) -/
theorem c10_no_hand_ownership_check (deck : List Card) (shuffleFn : List Card → List Card)
    (s : GameState) (cid : String) (c : Card) (pc : Player)
    (hcid : cid ≠ "")
    (hfind : getCardById deck cid = some c)
    (hlegal : canPlayCard s.tableStk.head? c s.lastPlayerDrew = true)
    (hget : s.players.get? s.curPlayer = some pc)
    (hnotin : List.all pc.cards (fun x => x.id != c.id) = true)
    (hnonempty : pc.cards ≠ [])
    (hnotfin : s.playersFinished.length ≠ s.players.length - 1) :
    ∃ s' ev, move deck shuffleFn s false (some cid) = MoveOutcome.ongoing s' ev ∧
      s'.tableStk = c :: s.tableStk ∧ s'.players = s.players := by
  have ht : strTruthy (some cid) = true := by simp [strTruthy, hcid]
  have hfilter : pc.cards.filter (fun x => x.id != c.id) = pc.cards :=
    List.filter_eq_self.mpr (List.all_eq_true.mp hnotin)
  have hmodify : modifyHand s.players s.curPlayer
      (fun cs => cs.filter (fun x => x.id != c.id)) = s.players := by
    apply modifyHand_eq_self
    intro p hp
    rw [hget] at hp
    injection hp with hp'
    subst hp'
    exact hfilter
  unfold move applyPlay
  have hcurne : seatEmpty s.players s.curPlayer = false := by
    unfold seatEmpty
    rw [hget]
    simp [List.length_eq_zero, hnonempty]
  have hfinbeq : (s.playersFinished.length == s.players.length - 1) = false :=
    beq_eq_false_iff_ne.mpr hnotfin
  simp only [ht, if_true, Option.getD_some, hfind, hlegal, Bool.not_true, Bool.false_eq_true,
    if_false, eq_self_iff_true]
  simp only [hmodify, hcurne, Bool.false_eq_true, if_false, hfinbeq]
  exact ⟨_, _, rfl, rfl, rfl⟩

theorem c10_no_hand_ownership_check_witness :
    (move deckOrch idShuffle stateOrch false (some ("b7"))).stateOf.tableStk
        = cardBlue7 :: stateOrch.tableStk ∧
      (move deckOrch idShuffle stateOrch false (some ("b7"))).stateOf.players
        = stateOrch.players := by
  obtain ⟨s', ev, hmv, htbl, hps⟩ :=
    c10_no_hand_ownership_check deckOrch idShuffle stateOrch ("b7") cardBlue7
      (mkPlayer ("0") [cardYellow2]) (by decide) (by decide) (by decide) (by decide)
      (by decide) (by decide) (by decide)
  rw [hmv]
  exact ⟨htbl, hps⟩

/-- Shape of the ordinary (non-finishing) outcome of the play branch: the
new current actor is the precomputed next index, and the player list is the
old list with the played id filtered out of the actor's hand. -/
theorem applyPlay_ongoing (s2 : GameState) (nxt : Nat) (c : Card) (ev : MoveEvent)
    (s' : GameState) (ev' : MoveEvent)
    (hmv : applyPlay s2 nxt c ev = MoveOutcome.ongoing s' ev') :
    s'.curPlayer = nxt ∧
      s'.players = modifyHand s2.players s2.curPlayer
        (fun cs => cs.filter (fun x => x.id != c.id)) := by
  unfold applyPlay at hmv
  dsimp only at hmv
  repeat' split at hmv
  all_goals
    first
      | (injection hmv with h1 h2
         rw [← h1]
         exact ⟨rfl, rfl⟩)
      | (simp at hmv)

/-- C4 (counterexample): in `stateWildLast` the current actor (seat 0,
holding only a wild card) plays the wild as its last card; the game is not
over, yet the new current actor is seat 0 itself — now finished (empty
hand) and recorded in `playersFinished` — so the current-actor index points
at a finished seat, contradicting the claimed invariant and the claim that
the new current actor is a different, non-finished seat. -/
theorem c4_current_actor_counterexample :
    (move deckWildLast idShuffle stateWildLast false (some ("w1"))).isOngoing = true ∧
      (move deckWildLast idShuffle stateWildLast false (some ("w1"))).stateOf.curPlayer
        = stateWildLast.curPlayer ∧
      (move deckWildLast idShuffle stateWildLast false (some ("w1"))).stateOf.playersFinished
        = [0] ∧
      seatEmpty (move deckWildLast idShuffle stateWildLast false (some ("w1"))).stateOf.players
        (move deckWildLast idShuffle stateWildLast false (some ("w1"))).stateOf.curPlayer
        = true := by
  decide

/-- C4 (amended): the current-actor invariant holds except when turn
resolution hands the turn back to the acting seat itself (as a wild — and,
with few active seats, a skip — can): after any `move` that ends in the
ordinary `ongoing` outcome, whenever the new current actor differs from the
acting seat it is a seat with a non-empty hand. A finished seat can become
(or stay) the current actor only as the acting seat of the move itself. -/
theorem c4_current_actor_nonfinished_unless_self (deck : List Card)
    (shuffleFn : List Card → List Card)
    (s : GameState) (draw : Bool) (cardId : Option String)
    (hd : s.direction = 1 ∨ s.direction = -1)
    (hlen : 0 < s.players.length) (hcur : s.curPlayer < s.players.length)
    (t : Nat) (ht : t < s.players.length) (htne : seatEmpty s.players t = false) :
    ∀ s' ev, move deck shuffleFn s draw cardId = MoveOutcome.ongoing s' ev →
      s'.curPlayer ≠ s.curPlayer →
      seatEmpty s'.players s'.curPlayer = false := by
  intro s' ev hmv hne
  unfold move at hmv
  dsimp only at hmv
  have hq1l : (if draw then doDraw shuffleFn s else (s, 0, [])).1.players.length
      = s.players.length := by
    split
    · exact doDraw_players_length shuffleFn s
    · rfl
  have hq1c : (if draw then doDraw shuffleFn s else (s, 0, [])).1.curPlayer = s.curPlayer := by
    split
    · exact doDraw_curPlayer shuffleFn s
    · rfl
  have hq1d : (if draw then doDraw shuffleFn s else (s, 0, [])).1.direction = s.direction := by
    split
    · exact doDraw_direction shuffleFn s
    · rfl
  have hq1t : seatEmpty (if draw then doDraw shuffleFn s else (s, 0, [])).1.players t
      = false := by
    split
    · exact doDraw_preserves_nonempty shuffleFn s t htne
    · exact htne
  rcases hcc : (if strTruthy cardId then getCardById deck (cardId.getD "") else none)
    with _ | c
  all_goals rw [hcc] at hmv
  all_goals dsimp only at hmv
  · injection hmv with h1 h2
    rw [← h1] at hne ⊢
    dsimp only at hne ⊢
    rw [← hq1c] at hne
    exact (getNextPlayer_ne_nonempty (if draw then doDraw shuffleFn s else (s, 0, [])).1 none
      (by rw [hq1d]; exact hd) (by rw [hq1l]; exact hlen)
      (by rw [hq1c, hq1l]; exact hcur) t (by rw [hq1l]; exact ht) hq1t hne).1
  · split at hmv
    · simp at hmv
    · obtain ⟨hcp, hpl⟩ := applyPlay_ongoing _ _ _ _ _ _ hmv
      dsimp only at hcp hpl
      rw [hpl, hcp]
      rw [hcp] at hne
      rw [← hq1c] at hne
      rw [seatEmpty_modifyHand_ne _ _ _ _ hne]
      exact (getNextPlayer_ne_nonempty (if draw then doDraw shuffleFn s else (s, 0, [])).1
        (some c) (by rw [hq1d]; exact hd) (by rw [hq1l]; exact hlen)
        (by rw [hq1c, hq1l]; exact hcur) t (by rw [hq1l]; exact ht) hq1t hne).1

theorem c4_current_actor_nonfinished_unless_self_witness :
    seatEmpty [mkPlayer ("0") [cardYellow2], mkPlayer ("1") [cardRed5]] 1 = false := by
  have h := c4_current_actor_nonfinished_unless_self deckOrch idShuffle stateOrch false
    (some ("b7")) (Or.inl rfl) (by decide) (by decide) 0 (by decide) (by decide)
    { players := [mkPlayer ("0") [cardYellow2], mkPlayer ("1") [cardRed5]],
      curPlayer := 1, direction := 1, tableStk := [cardBlue7, cardBlue3], drawingStk := [],
      sumDrawing := 0, lastPlayerDrew := false, playersFinished := [] }
    { curPlayer := 0, nxtPlayer := 1, card := some cardBlue7 }
    (by decide) (by decide)
  exact h

/-- C8 (counterexample): in `stateFinishWild` (four seats, finish order
[2,0] so far, seat 1 to act holding only a wild, seat 3 still holding two
cards), seat 1's final wild empties its hand and brings the finished count
to seat-count − 1 — but the appended last entry is the precomputed next
player, which for a wild is the acting seat itself: the finish order lists
seat 1 twice and the sole remaining non-finished seat 3 does not appear at
all, contradicting the claim that the remaining seat is auto-appended as
last place. -/
theorem c8_finish_append_counterexample :
    (move deckFinish idShuffle stateFinishWild false (some ("w1"))).orderOf
        = some [mkPlayer ("2") [], mkPlayer ("0") [],
                { id := "1", name := "1", cards := [], isBot := false },
                { id := "1", name := "1", cards := [], isBot := false }] ∧
      mkPlayer ("3") [cardRed5, cardBlue3] ∉
        ((move deckFinish idShuffle stateFinishWild false (some ("w1"))).orderOf.getD []) := by
  decide

/-- C8 (amended): the seat appended as the last finish-order entry is the
precomputed next player, not necessarily the sole remaining seat; when the
final card is a plain card (no action), the next player IS the sole
remaining non-finished seat, and then the claim's behavior holds exactly:
the remaining seat is appended last, the match ends in the `finished`
outcome with the finish event carrying the seats in finishing order, all
game state is reset to `initState`, and the remaining seat takes no turn. -/
theorem c8_finish_appends_next_player (deck : List Card)
    (shuffleFn : List Card → List Card)
    (s : GameState) (cid : String) (c : Card) (pc : Player) (r : Nat)
    (hcid : cid ≠ "")
    (hfind : getCardById deck cid = some c)
    (haction : c.action = none)
    (hlegal : canPlayCard s.tableStk.head? c s.lastPlayerDrew = true)
    (hd : s.direction = 1 ∨ s.direction = -1)
    (hlen : 0 < s.players.length) (hcur : s.curPlayer < s.players.length)
    (hr : r < s.players.length) (hcr : s.curPlayer ≠ r)
    (hget : s.players.get? s.curPlayer = some pc) (hpc : pc.cards = [c])
    (hrne : seatEmpty s.players r = false)
    (honly : ∀ t, t < s.players.length → t ≠ s.curPlayer → t ≠ r →
      seatEmpty s.players t = true)
    (hfin : s.playersFinished.length = s.players.length - 2)
    (hlen2 : 2 ≤ s.players.length) :
    ∃ pr, s.players.get? r = some pr ∧
      move deck shuffleFn s false (some cid) =
        MoveOutcome.finished initState
          (((s.playersFinished ++ [s.curPlayer]).filterMap
              (fun idx => (modifyHand s.players s.curPlayer
                (fun cs => cs.filter (fun x => x.id != c.id))).get? idx)) ++ [pr])
          { curPlayer := s.curPlayer, nxtPlayer := r, card := some c } := by
  have ht : strTruthy (some cid) = true := by simp [strTruthy, hcid]
  obtain ⟨pr, hpr⟩ : ∃ pr, s.players.get? r = some pr := by
    cases hx : s.players.get? r with
    | none =>
      have := List.get?_eq_none.mp hx
      omega
    | some pr => exact ⟨pr, rfl⟩
  refine ⟨pr, hpr, ?_⟩
  have hmf : moveForward s.players s.direction s.curPlayer 1 = r := by
    rw [moveForward_succ, moveForward_zero]
    exact advanceOne_two s.players s.direction hd hlen s.curPlayer r hcur hr hcr hrne honly
  have hnx : getNextPlayer s (some c) = (s.direction, r) := by
    rw [getNextPlayer_noaction s c haction, hmf]
  have hempty : seatEmpty (modifyHand s.players s.curPlayer
      (fun cs => cs.filter (fun x => x.id != c.id))) s.curPlayer = true := by
    unfold seatEmpty
    rw [modifyHand_get?_self, hget]
    simp [hpc, bne_self_eq_false]
  have hfinT : ((s.playersFinished ++ [s.curPlayer]).length ==
      (modifyHand s.players s.curPlayer
        (fun cs => cs.filter (fun x => x.id != c.id))).length - 1) = true := by
    rw [List.length_append, modifyHand_length]
    simp only [beq_iff_eq, List.length_cons, List.length_nil]
    omega
  unfold move applyPlay
  simp only [ht, if_true, Option.getD_some, hfind, hlegal, Bool.not_true, Bool.false_eq_true,
    if_false, eq_self_iff_true, hnx]
  simp only [hempty, if_true, hfinT]
  have hgr : (modifyHand s.players s.curPlayer
      (fun cs => cs.filter (fun x => x.id != c.id))).get? r = some pr := by
    rw [modifyHand_get?_ne s.players s.curPlayer r _ (Ne.symm hcr)]
    exact hpr
  rw [List.filterMap_append]
  congr 1
  rw [List.get?_eq_getElem?] at hgr
  simp [List.filterMap_cons, hgr]

theorem c8_finish_appends_next_player_witness :
    move deckFinish idShuffle stateFinishPlain false (some ("b7"))
      = MoveOutcome.finished initState
          [mkPlayer ("2") [], mkPlayer ("0") [],
           { id := "1", name := "1", cards := [], isBot := false },
           mkPlayer ("3") [cardRed5, cardGreen5]]
          { curPlayer := 1, nxtPlayer := 3, card := some cardBlue7 } := by
  obtain ⟨pr, hpr, hmv⟩ := c8_finish_appends_next_player deckFinish idShuffle
    stateFinishPlain ("b7") cardBlue7 (mkPlayer ("1") [cardBlue7]) 3
    (by decide) (by decide) (by decide) (by decide) (Or.inl rfl) (by decide) (by decide)
    (by decide) (by decide) (by decide) (by decide) (by decide)
    (fun t ht h1 h3 => by
      have ht4 : t < 4 := ht
      have h1n : t ≠ 1 := h1
      have : t = 0 ∨ t = 2 := by omega
      rcases this with h | h <;> subst h <;> rfl)
    (by decide) (by decide)
  have hx : stateFinishPlain.players.get? 3 = some (mkPlayer ("3") [cardRed5, cardGreen5]) := by
    decide
  rw [hx] at hpr
  injection hpr with hpr'
  subst hpr'
  rw [hmv]
  decide
